import Mathlib

/-!
# Cabinet panel calculator — verification development

Shallow embedding of the computation core of `src/App.jsx`:
the numeric-field parser (`parseNumber`), the dimension resolver
(`getEffectiveBoxHeight`), the per-row panel expander
(`computePanelsForRow`), the cross-row aggregator (`aggregatePanels`),
the total-count reduction (`totalPanels`) and the CSV serializer
(`handleExportCSV`).

JavaScript numbers are modelled by `ℚ`: every value manipulated by the
core is obtained from finite decimal inputs by subtraction and by
multiplication with small integers, operations that are exact in
double-precision binary floating point at these magnitudes, and the
grouping and sorting logic only compares values for equality and order.
A raw form field is modelled by `RawField`: blank (`""`, `null`,
`undefined`), a non-numeric string (`parseFloat` gives `NaN` or
`±Infinity`), or a finite number.

JavaScript string comparison (`a.label < b.label`) compares code units;
it is embedded as the lexicographic order `charListLtb` on the
character lists underlying the labels (identical on the ASCII panel
labels actually produced by the program).
-/

/-- Lexicographic strict order on character lists: the embedding of the
JavaScript `<` on strings (code-unit comparison; identical to code-point
comparison on the labels this program produces). -/
def charListLtb : List Char → List Char → Bool
  | [], [] => false
  | _ :: _, [] => false
  | [], _ :: _ => true
  | a :: as, b :: bs =>
    if a.toNat < b.toNat then true
    else if b.toNat < a.toNat then false
    else charListLtb as bs

/-- The JavaScript string `<`, on the underlying character lists. -/
def strLtb (s t : String) : Bool :=
  charListLtb s.data t.data

theorem charListLtb_asymm :
    ∀ as bs, charListLtb as bs = true → charListLtb bs as = false := by
  intro as
  induction as with
  | nil =>
    intro bs h
    cases bs with
    | nil => simp [charListLtb] at h
    | cons b bs => simp [charListLtb]
  | cons a as ih =>
    intro bs h
    cases bs with
    | nil => simp [charListLtb] at h
    | cons b bs =>
      simp only [charListLtb] at h ⊢
      by_cases h1 : a.toNat < b.toNat
      · have h2 : ¬ b.toNat < a.toNat := by omega
        simp [h1, h2]
      · by_cases h2 : b.toNat < a.toNat
        · simp [h1, h2] at h
        · simp only [h1, h2, if_false] at h ⊢
          exact ih bs h

theorem charListLtb_eq_of_both_false :
    ∀ as bs, charListLtb as bs = false → charListLtb bs as = false → as = bs := by
  intro as
  induction as with
  | nil =>
    intro bs h1 _
    cases bs with
    | nil => rfl
    | cons b bs => simp [charListLtb] at h1
  | cons a as ih =>
    intro bs h1 h2
    cases bs with
    | nil => simp [charListLtb] at h2
    | cons b bs =>
      simp only [charListLtb] at h1 h2
      by_cases hab : a.toNat < b.toNat
      · simp [hab] at h1
      · by_cases hba : b.toNat < a.toNat
        · simp [hab, hba] at h2
        · have hval : a = b := Char.ext (UInt32.ext (show a.toNat = b.toNat by omega))
          subst hval
          simp only [hab, hba, if_false] at h1 h2
          rw [ih bs h1 h2]

theorem charListLtb_trans :
    ∀ as bs cs, charListLtb as bs = true → charListLtb bs cs = true →
      charListLtb as cs = true := by
  intro as
  induction as with
  | nil =>
    intro bs cs h1 h2
    cases cs with
    | nil =>
      cases bs with
      | nil => simp [charListLtb] at h1
      | cons b bs => simp [charListLtb] at h2
    | cons c cs => simp [charListLtb]
  | cons a as ih =>
    intro bs cs h1 h2
    cases bs with
    | nil => simp [charListLtb] at h1
    | cons b bs =>
      cases cs with
      | nil => simp [charListLtb] at h2
      | cons c cs =>
        simp only [charListLtb] at h1 h2 ⊢
        by_cases hab : a.toNat < b.toNat
        · by_cases hbc : b.toNat < c.toNat
          · simp [show a.toNat < c.toNat by omega]
          · by_cases hcb : c.toNat < b.toNat
            · simp [hbc, hcb] at h2
            · simp [show a.toNat < c.toNat by omega]
        · by_cases hba : b.toNat < a.toNat
          · simp [hab, hba] at h1
          · have hval : a = b := Char.ext (UInt32.ext (show a.toNat = b.toNat by omega))
            subst hval
            simp only [hab, hba, if_false] at h1
            by_cases hbc : a.toNat < c.toNat
            · simp [hbc]
            · by_cases hcb : c.toNat < a.toNat
              · simp [hbc, hcb] at h2
              · simp only [hbc, hcb, if_false] at h2 ⊢
                exact ih bs cs h1 h2

theorem strLtb_asymm {s t : String} (h : strLtb s t = true) : strLtb t s = false :=
  charListLtb_asymm s.data t.data h

theorem strLtb_eq_of_both_false {s t : String}
    (h1 : strLtb s t = false) (h2 : strLtb t s = false) : s = t :=
  String.ext (charListLtb_eq_of_both_false s.data t.data h1 h2)

theorem strLtb_trans {s t u : String}
    (h1 : strLtb s t = true) (h2 : strLtb t u = true) : strLtb s u = true :=
  charListLtb_trans s.data t.data u.data h1 h2

/-- A raw value of a numeric form field, as seen by `parseNumber`. -/
inductive RawField where
  | blank : RawField
  | nonNumeric : RawField
  | num : ℚ → RawField
deriving DecidableEq

/-- `parseNumber` from App.jsx: blank input (`""`, `null`, `undefined`)
and non-finite parses (`NaN`, `±Infinity`) give `null` (here `none`),
a finite number parses to itself. -/
def parseNumber : RawField → Option ℚ
  | .blank => none
  | .nonNumeric => none
  | .num q => some q

/-- One cabinet-spec row, the shape produced by `createEmptyRow` and
`handleChange` (the `id` field plays no role in the computation core). -/
structure Row where
  label : String
  cabinetHeight : RawField
  kickHeight : RawField
  boxHeight : RawField
  boxWidth : RawField
  boxDepth : RawField
  braceHeight : RawField
  quantity : RawField
deriving DecidableEq

/-- `getEffectiveBoxHeight` from App.jsx: `cabinetHeight - kickHeight`
when both parse to numbers, otherwise the parsed `boxHeight` field. -/
def getEffectiveBoxHeight (row : Row) : Option ℚ :=
  match parseNumber row.cabinetHeight, parseNumber row.kickHeight with
  | some cabinetHeight, some kickHeight => some (cabinetHeight - kickHeight)
  | _, _ => parseNumber row.boxHeight

/-- One flat panel `{ label, width, height, count }`; the aggregated
groups built by `aggregatePanels` have exactly the same shape. -/
structure Panel where
  label : String
  width : ℚ
  height : ℚ
  count : ℚ
deriving DecidableEq

/-- `computePanelsForRow` from App.jsx: guard on missing fields and
non-positive quantity, then the Wall/Floor/Back/Brace panels, filtered
to positive width, height and count. -/
def computePanelsForRow (row : Row) : List Panel :=
  match getEffectiveBoxHeight row, parseNumber row.boxWidth,
        parseNumber row.boxDepth, parseNumber row.braceHeight,
        parseNumber row.quantity with
  | some boxHeightEffective, some boxWidth, some boxDepth,
      some braceHeight, some quantity =>
    if quantity ≤ 0 then []
    else
      ([⟨"Wall", boxDepth, boxHeightEffective, 2 * quantity⟩,
        ⟨"Floor", boxWidth - 0.75, boxDepth, 1 * quantity⟩,
        ⟨"Back", boxWidth - 0.75, boxHeightEffective - 1.5, 1 * quantity⟩,
        ⟨"Brace", boxWidth - 1.5, braceHeight, 3 * quantity⟩] : List Panel).filter
        (fun p => decide (0 < p.width) && decide (0 < p.height) && decide (0 < p.count))
  | _, _, _, _, _ => []

/-- The aggregation key `` `${label}|${width}|${height}` `` of App.jsx.
Panel labels are the four fixed words Wall/Floor/Back/Brace and
JavaScript number stringification is injective, so the key string is
faithfully modelled by the triple itself. -/
def panelKey (p : Panel) : String × ℚ × ℚ :=
  (p.label, p.width, p.height)

/-- One step of the `Map` accumulation in `aggregatePanels`: update the
entry with this key in place (`existing.count += count`), or append a
fresh group (`count: 0`, then `+=`) at the end — a JS `Map` keeps
insertion order. -/
def addToGroup (p : Panel) : List Panel → List Panel
  | [] => [⟨p.label, p.width, p.height, 0 + p.count⟩]
  | g :: gs =>
    if panelKey g = panelKey p then
      { g with count := g.count + p.count } :: gs
    else
      g :: addToGroup p gs

/-- The `Map`-building phase of `aggregatePanels`: expand every row and
fold the panels into the keyed accumulator in input order. -/
def buildGroups (rows : List Row) : List Panel :=
  (rows.flatMap computePanelsForRow).foldl (fun acc p => addToGroup p acc) []

/-- The sort comparator of `aggregatePanels`, on key triples: label
ascending (JS string order), then width ascending, then height
ascending; `cmp(a, b) ≤ 0` of the source comparator. -/
def keyLe (a b : String × ℚ × ℚ) : Prop :=
  strLtb a.1 b.1 = true ∨
    (strLtb a.1 b.1 = false ∧ strLtb b.1 a.1 = false ∧
      (a.2.1 < b.2.1 ∨ (a.2.1 = b.2.1 ∧ a.2.2 ≤ b.2.2)))

instance : DecidableRel keyLe := fun a b => by
  unfold keyLe; infer_instance

/-- The comparator lifted to groups. -/
def panelLe (a b : Panel) : Prop :=
  keyLe (panelKey a) (panelKey b)

instance : DecidableRel panelLe := fun a b => by
  unfold panelLe; infer_instance

/-- `aggregatePanels` from App.jsx: group by (label, width, height)
summing counts, then sort by label, then width, then height, all
ascending.  `Array.prototype.sort` with a consistent comparator returns
a sorted permutation; it is modelled by insertion sort (the aggregated
list has pairwise distinct keys, so the sorted permutation is unique
and the choice of algorithm is immaterial). -/
def aggregatePanels (rows : List Row) : List Panel :=
  List.insertionSort panelLe (buildGroups rows)

/-- `totalPanels` from App.jsx:
`panelSummary.reduce((sum, p) => sum + p.count, 0)`. -/
def totalPanels (rows : List Row) : ℚ :=
  ((aggregatePanels rows).map Panel.count).sum

/-- The group a key denotes, given its accumulated count. -/
def mkGroup (k : String × ℚ × ℚ) (c : ℚ) : Panel :=
  ⟨k.1, k.2.1, k.2.2, c⟩

/-- Total count carried by the panels of a list whose key is `k`. -/
def keyCount (ps : List Panel) (k : String × ℚ × ℚ) : ℚ :=
  ((ps.filter fun p => decide (panelKey p = k)).map Panel.count).sum

/-- Fractional decimal digits of `r / d` (`0 ≤ r < d`), the digits JS
prints after the decimal point for a value with a finite decimal
expansion; `fuel` bounds the number of digits. -/
def fracDigits (d : Nat) : Nat → Nat → List Char
  | _, 0 => []
  | 0, _ => []
  | fuel + 1, r => Nat.digitChar (r * 10 / d) :: fracDigits d fuel (r * 10 % d)

/-- Decimal digits of a natural number, most significant first (the
embedding of JS integer stringification). -/
def natDigits : Nat → Nat → List Char
  | 0, _ => []
  | fuel + 1, n =>
    if n < 10 then [Nat.digitChar n]
    else natDigits fuel (n / 10) ++ [Nat.digitChar (n % 10)]

/-- JS `Number#toString` restricted to values with a finite decimal
expansion (every value this program renders): optional sign, integer
part, and fractional part when non-zero. -/
def renderRat (q : ℚ) : String :=
  let n := q.num.natAbs
  let ip := natDigits 64 (n / q.den)
  let fp := fracDigits q.den 64 (n % q.den)
  String.mk ((if q.num < 0 then ['-'] else []) ++ ip ++
    (if fp = [] then [] else '.' :: fp))

/-- `[p.label, p.width, p.height, p.count].join(",")` from
`handleExportCSV`. -/
def groupLine (p : Panel) : String :=
  p.label ++ "," ++ renderRat p.width ++ "," ++ renderRat p.height ++ "," ++
    renderRat p.count

/-- The header line of `handleExportCSV`. -/
def csvHeader : String := "Label,Width,Height,Count"

/-- `lines.join("\n")` from `handleExportCSV`. -/
def joinLines : List String → String
  | [] => ""
  | [s] => s
  | s :: t :: rest => s ++ "\n" ++ joinLines (t :: rest)

/-- `handleExportCSV` from App.jsx: no artifact when the summary is
empty (`if (!panelSummary.length) return`), otherwise the CSV text
`[header, ...lines].join("\n")`. -/
def handleExportCSV (rows : List Row) : Option String :=
  if (aggregatePanels rows).length = 0 then none
  else some (joinLines (csvHeader :: (aggregatePanels rows).map groupLine))

/-- The first example row of `handleLoadExample` (the section-8 spec of
the specification). -/
def exRow1 : Row :=
  { label := "Base 30\"", cabinetHeight := .num 34.5, kickHeight := .num 4.5,
    boxHeight := .blank, boxWidth := .num 30, boxDepth := .num 24,
    braceHeight := .num 3, quantity := .num 4 }

/-- The second example row of `handleLoadExample`. -/
def exRow2 : Row :=
  { label := "Upper 30\"", cabinetHeight := .num 30, kickHeight := .num 0,
    boxHeight := .blank, boxWidth := .num 30, boxDepth := .num 12,
    braceHeight := .num 3, quantity := .num 6 }

/-- A spec whose Back panel is filtered out (height 1 - 1.5 ≤ 0) while
Wall, Floor and Brace survive. -/
def shortRow : Row :=
  { label := "Short", cabinetHeight := .blank, kickHeight := .blank,
    boxHeight := .num 1, boxWidth := .num 30, boxDepth := .num 24,
    braceHeight := .num 3, quantity := .num 1 }

theorem keyLe_total (a b : String × ℚ × ℚ) : keyLe a b ∨ keyLe b a := by
  unfold keyLe
  rcases hab : strLtb a.1 b.1 with _ | _
  · rcases hba : strLtb b.1 a.1 with _ | _
    · rcases lt_trichotomy a.2.1 b.2.1 with hw | hw | hw
      · exact Or.inl (Or.inr ⟨rfl, rfl, Or.inl hw⟩)
      · rcases le_total a.2.2 b.2.2 with hh | hh
        · exact Or.inl (Or.inr ⟨rfl, rfl, Or.inr ⟨hw, hh⟩⟩)
        · exact Or.inr (Or.inr ⟨rfl, rfl, Or.inr ⟨hw.symm, hh⟩⟩)
      · exact Or.inr (Or.inr ⟨rfl, rfl, Or.inl hw⟩)
    · exact Or.inr (Or.inl rfl)
  · exact Or.inl (Or.inl rfl)

theorem keyLe_trans {a b c : String × ℚ × ℚ}
    (h1 : keyLe a b) (h2 : keyLe b c) : keyLe a c := by
  unfold keyLe at h1 h2 ⊢
  rcases h1 with h1 | ⟨hab1, hab2, h1⟩
  · rcases h2 with h2 | ⟨hbc1, hbc2, _⟩
    · exact Or.inl (strLtb_trans h1 h2)
    · have : b.1 = c.1 := strLtb_eq_of_both_false hbc1 hbc2
      exact Or.inl (this ▸ h1)
  · have hab : a.1 = b.1 := strLtb_eq_of_both_false hab1 hab2
    rcases h2 with h2 | ⟨hbc1, hbc2, h2⟩
    · exact Or.inl (hab ▸ h2)
    · have hbc : b.1 = c.1 := strLtb_eq_of_both_false hbc1 hbc2
      refine Or.inr ⟨by rw [hab]; exact hbc1, by rw [hab]; exact hbc2, ?_⟩
      rcases h1 with h1 | ⟨h1w, h1h⟩
      · rcases h2 with h2 | ⟨h2w, h2h⟩
        · exact Or.inl (h1.trans h2)
        · exact Or.inl (h2w ▸ h1)
      · rcases h2 with h2 | ⟨h2w, h2h⟩
        · exact Or.inl (h1w ▸ h2)
        · exact Or.inr ⟨h1w.trans h2w, h1h.trans h2h⟩

theorem keyLe_antisymm {a b : String × ℚ × ℚ}
    (h1 : keyLe a b) (h2 : keyLe b a) : a = b := by
  unfold keyLe at h1 h2
  rcases h1 with h1 | ⟨hab1, hab2, h1⟩
  · rcases h2 with h2 | ⟨hba1, hba2, _⟩
    · exact absurd (strLtb_asymm h1) (by rw [h2]; simp)
    · exact absurd h1 (by rw [hba2]; simp)
  · rcases h2 with h2 | ⟨hba1, hba2, h2⟩
    · exact absurd h2 (by rw [hab2]; simp)
    · have hs : a.1 = b.1 := strLtb_eq_of_both_false hab1 hab2
      have hw : a.2.1 = b.2.1 := by
        rcases h1 with h1 | ⟨h1w, _⟩
        · rcases h2 with h2 | ⟨h2w, _⟩
          · exact absurd h2 (not_lt.mpr h1.le)
          · exact absurd h1 (by rw [h2w]; exact lt_irrefl _)
        · exact h1w
      have hh : a.2.2 = b.2.2 := by
        rcases h1 with h1 | ⟨_, h1h⟩
        · exact absurd h1 (by rw [hw]; exact lt_irrefl _)
        · rcases h2 with h2 | ⟨_, h2h⟩
          · exact absurd h2 (by rw [hw]; exact lt_irrefl _)
          · exact le_antisymm h1h h2h
      exact Prod.ext hs (Prod.ext hw hh)

instance : IsTotal (String × ℚ × ℚ) keyLe := ⟨keyLe_total⟩

instance : IsTrans (String × ℚ × ℚ) keyLe := ⟨fun _ _ _ => keyLe_trans⟩

instance : IsAntisymm (String × ℚ × ℚ) keyLe := ⟨fun _ _ => keyLe_antisymm⟩

instance : IsTotal Panel panelLe := ⟨fun a b => keyLe_total (panelKey a) (panelKey b)⟩

instance : IsTrans Panel panelLe := ⟨fun _ _ _ h1 h2 => keyLe_trans h1 h2⟩




theorem keyCount_nil (k : String × ℚ × ℚ) : keyCount [] k = 0 := rfl

theorem keyCount_cons (p : Panel) (ps : List Panel) (k : String × ℚ × ℚ) :
    keyCount (p :: ps) k = (if panelKey p = k then p.count else 0) + keyCount ps k := by
  by_cases h : panelKey p = k <;> simp [keyCount, List.filter_cons, h]

theorem keyCount_perm {ps qs : List Panel} (h : List.Perm ps qs) (k : String × ℚ × ℚ) :
    keyCount ps k = keyCount qs k :=
  ((h.filter _).map _).sum_eq

theorem keyCount_eq_zero_of_not_mem {ps : List Panel} {k : String × ℚ × ℚ}
    (h : k ∉ ps.map panelKey) : keyCount ps k = 0 := by
  induction ps with
  | nil => rfl
  | cons p ps ih =>
    simp only [List.map_cons, List.mem_cons, not_or] at h
    rw [keyCount_cons, if_neg (fun hEq => h.1 hEq.symm), zero_add, ih h.2]

theorem keyCount_of_mem_nodup :
    ∀ {gs : List Panel}, ((gs.map panelKey).Nodup) → ∀ {g : Panel}, g ∈ gs →
      keyCount gs (panelKey g) = g.count := by
  intro gs
  induction gs with
  | nil => intro _ g hg; simp at hg
  | cons q gs ih =>
    intro hnd g hg
    simp only [List.map_cons, List.nodup_cons] at hnd
    rcases List.mem_cons.mp hg with hq | hg
    · subst hq
      rw [keyCount_cons, if_pos rfl,
        keyCount_eq_zero_of_not_mem hnd.1, add_zero]
    · have hne : panelKey q ≠ panelKey g := by
        intro hEq
        exact hnd.1 (hEq ▸ List.mem_map_of_mem panelKey hg)
      rw [keyCount_cons, if_neg hne, ih hnd.2 hg, zero_add]

theorem addToGroup_keyCount (p : Panel) (k : String × ℚ × ℚ) :
    ∀ gs : List Panel,
      keyCount (addToGroup p gs) k =
        keyCount gs k + (if panelKey p = k then p.count else 0) := by
  intro gs
  induction gs with
  | nil =>
    have hkey : panelKey (⟨p.label, p.width, p.height, 0 + p.count⟩ : Panel) = panelKey p := rfl
    simp only [addToGroup, keyCount_cons, keyCount_nil, hkey]
    by_cases h : panelKey p = k <;> simp [h]
  | cons g gs ih =>
    by_cases h : panelKey g = panelKey p
    · have hkey : panelKey ({ g with count := g.count + p.count } : Panel) = panelKey g := rfl
      simp only [addToGroup, if_pos h, keyCount_cons, hkey]
      by_cases hk : panelKey g = k
      · have hpk : panelKey p = k := h.symm.trans hk
        simp only [if_pos hk, if_pos hpk]
        ring
      · have hpk : ¬ panelKey p = k := fun hp => hk (h.trans hp)
        simp only [if_neg hk, if_neg hpk]
        ring
    · simp only [addToGroup, if_neg h, keyCount_cons, ih]
      ring

theorem addToGroup_map_key (p : Panel) :
    ∀ gs : List Panel,
      (addToGroup p gs).map panelKey =
        if panelKey p ∈ gs.map panelKey then gs.map panelKey
        else gs.map panelKey ++ [panelKey p] := by
  intro gs
  induction gs with
  | nil =>
    simp only [addToGroup, List.map_nil, List.not_mem_nil, if_false, List.nil_append,
      List.map_cons]
    rfl
  | cons g gs ih =>
    by_cases h : panelKey g = panelKey p
    · have hkey : panelKey ({ g with count := g.count + p.count } : Panel) = panelKey g := rfl
      simp only [addToGroup, if_pos h, List.map_cons, hkey, h, List.mem_cons, true_or, if_true]
    · simp only [addToGroup, if_neg h, List.map_cons, ih]
      by_cases hm : panelKey p ∈ gs.map panelKey
      · simp [hm]
      · have hne : panelKey p ≠ panelKey g := fun hEq => h hEq.symm
        simp [hm, hne]

theorem addToGroup_nodup_key (p : Panel) (gs : List Panel)
    (h : (gs.map panelKey).Nodup) : ((addToGroup p gs).map panelKey).Nodup := by
  rw [addToGroup_map_key]
  by_cases hm : panelKey p ∈ gs.map panelKey
  · simpa [hm] using h
  · simp [hm, List.nodup_append, h, List.disjoint_singleton]

theorem foldl_addToGroup_keyCount :
    ∀ (ps acc : List Panel) (k : String × ℚ × ℚ),
      keyCount (ps.foldl (fun a p => addToGroup p a) acc) k =
        keyCount acc k + keyCount ps k := by
  intro ps
  induction ps with
  | nil => intro acc k; simp [keyCount_nil]
  | cons p ps ih =>
    intro acc k
    rw [List.foldl_cons, ih, addToGroup_keyCount, keyCount_cons]
    ring

theorem foldl_addToGroup_mem_key :
    ∀ (ps acc : List Panel) (k : String × ℚ × ℚ),
      k ∈ (ps.foldl (fun a p => addToGroup p a) acc).map panelKey ↔
        k ∈ acc.map panelKey ∨ k ∈ ps.map panelKey := by
  intro ps
  induction ps with
  | nil => intro acc k; simp
  | cons p ps ih =>
    intro acc k
    rw [List.foldl_cons, ih, addToGroup_map_key]
    by_cases hm : panelKey p ∈ acc.map panelKey
    · simp only [if_pos hm, List.map_cons, List.mem_cons]
      constructor
      · rintro (ha | hp)
        · exact Or.inl ha
        · exact Or.inr (Or.inr hp)
      · rintro (ha | hk | hp)
        · exact Or.inl ha
        · exact Or.inl (hk ▸ hm)
        · exact Or.inr hp
    · simp only [if_neg hm, List.map_cons, List.mem_cons, List.mem_append,
        List.mem_singleton, List.not_mem_nil, or_false]
      tauto

theorem foldl_addToGroup_nodup :
    ∀ (ps acc : List Panel), ((acc.map panelKey).Nodup) →
      ((ps.foldl (fun a p => addToGroup p a) acc).map panelKey).Nodup := by
  intro ps
  induction ps with
  | nil => intro acc h; simpa using h
  | cons p ps ih =>
    intro acc h
    rw [List.foldl_cons]
    exact ih _ (addToGroup_nodup_key p acc h)

theorem buildGroups_keyCount (rows : List Row) (k : String × ℚ × ℚ) :
    keyCount (buildGroups rows) k = keyCount (rows.flatMap computePanelsForRow) k := by
  rw [buildGroups, foldl_addToGroup_keyCount, keyCount_nil, zero_add]

theorem buildGroups_mem_key (rows : List Row) (k : String × ℚ × ℚ) :
    k ∈ (buildGroups rows).map panelKey ↔
      k ∈ (rows.flatMap computePanelsForRow).map panelKey := by
  rw [buildGroups, foldl_addToGroup_mem_key]
  simp

theorem buildGroups_nodup (rows : List Row) :
    ((buildGroups rows).map panelKey).Nodup :=
  foldl_addToGroup_nodup _ [] (by simp)

theorem mem_buildGroups_eq_mkGroup {rows : List Row} {g : Panel}
    (hg : g ∈ buildGroups rows) :
    g = mkGroup (panelKey g) (keyCount (rows.flatMap computePanelsForRow) (panelKey g)) := by
  have h1 := keyCount_of_mem_nodup (buildGroups_nodup rows) hg
  have h2 := buildGroups_keyCount rows (panelKey g)
  rw [← h2, h1]
  rfl

theorem aggregatePanels_perm (rows : List Row) :
    List.Perm (aggregatePanels rows) (buildGroups rows) :=
  List.perm_insertionSort panelLe (buildGroups rows)

theorem aggregatePanels_sorted (rows : List Row) :
    List.Sorted panelLe (aggregatePanels rows) :=
  List.sorted_insertionSort panelLe (buildGroups rows)

theorem aggregatePanels_sorted_keys (rows : List Row) :
    List.Sorted keyLe ((aggregatePanels rows).map panelKey) := by
  rw [List.Sorted, List.pairwise_map]
  exact aggregatePanels_sorted rows

theorem aggregatePanels_nodup_key (rows : List Row) :
    ((aggregatePanels rows).map panelKey).Nodup :=
  (((aggregatePanels_perm rows).map panelKey).nodup_iff).mpr (buildGroups_nodup rows)

theorem aggregatePanels_mem_key (rows : List Row) (k : String × ℚ × ℚ) :
    k ∈ (aggregatePanels rows).map panelKey ↔
      k ∈ (rows.flatMap computePanelsForRow).map panelKey :=
  (((aggregatePanels_perm rows).map panelKey).mem_iff).trans (buildGroups_mem_key rows k)

theorem mem_aggregatePanels_eq_mkGroup {rows : List Row} {g : Panel}
    (hg : g ∈ aggregatePanels rows) :
    g = mkGroup (panelKey g) (keyCount (rows.flatMap computePanelsForRow) (panelKey g)) :=
  mem_buildGroups_eq_mkGroup ((aggregatePanels_perm rows).mem_iff.mp hg)

theorem keyCount_aggregatePanels (rows : List Row) (k : String × ℚ × ℚ) :
    keyCount (aggregatePanels rows) k = keyCount (rows.flatMap computePanelsForRow) k :=
  (keyCount_perm (aggregatePanels_perm rows) k).trans (buildGroups_keyCount rows k)


theorem strLtb_label_facts :
    strLtb "Back" "Brace" = true ∧ strLtb "Back" "Floor" = true ∧
    strLtb "Back" "Wall" = true ∧ strLtb "Brace" "Back" = false ∧
    strLtb "Brace" "Floor" = true ∧ strLtb "Brace" "Wall" = true ∧
    strLtb "Floor" "Back" = false ∧ strLtb "Floor" "Brace" = false ∧
    strLtb "Floor" "Wall" = true ∧ strLtb "Wall" "Back" = false ∧
    strLtb "Wall" "Brace" = false ∧ strLtb "Wall" "Floor" = false ∧
    strLtb "Back" "Back" = false ∧ strLtb "Brace" "Brace" = false ∧
    strLtb "Floor" "Floor" = false ∧ strLtb "Wall" "Wall" = false := by
  decide

theorem computePanelsForRow_exRow1 :
    computePanelsForRow exRow1 =
      [⟨"Wall", 24, 30, 8⟩, ⟨"Floor", 29.25, 24, 4⟩,
       ⟨"Back", 29.25, 28.5, 4⟩, ⟨"Brace", 28.5, 3, 12⟩] := by
  norm_num [computePanelsForRow, getEffectiveBoxHeight, parseNumber, exRow1,
    List.filter]

theorem computePanelsForRow_exRow2 :
    computePanelsForRow exRow2 =
      [⟨"Wall", 12, 30, 12⟩, ⟨"Floor", 29.25, 12, 6⟩,
       ⟨"Back", 29.25, 28.5, 6⟩, ⟨"Brace", 28.5, 3, 18⟩] := by
  norm_num [computePanelsForRow, getEffectiveBoxHeight, parseNumber, exRow2,
    List.filter]

theorem buildGroups_ex :
    buildGroups [exRow1, exRow2] =
      [⟨"Wall", 24, 30, 8⟩, ⟨"Floor", 29.25, 24, 4⟩,
       ⟨"Back", 29.25, 28.5, 10⟩, ⟨"Brace", 28.5, 3, 30⟩,
       ⟨"Wall", 12, 30, 12⟩, ⟨"Floor", 29.25, 12, 6⟩] := by
  rw [buildGroups]
  rw [show ([exRow1, exRow2].flatMap computePanelsForRow) =
    computePanelsForRow exRow1 ++ computePanelsForRow exRow2 by simp]
  rw [computePanelsForRow_exRow1, computePanelsForRow_exRow2]
  norm_num [addToGroup, panelKey]

theorem aggregatePanels_ex :
    aggregatePanels [exRow1, exRow2] =
      [⟨"Back", 29.25, 28.5, 10⟩, ⟨"Brace", 28.5, 3, 30⟩,
       ⟨"Floor", 29.25, 12, 6⟩, ⟨"Floor", 29.25, 24, 4⟩,
       ⟨"Wall", 12, 30, 12⟩, ⟨"Wall", 24, 30, 8⟩] := by
  rw [aggregatePanels, buildGroups_ex]
  norm_num [List.insertionSort, List.orderedInsert, panelLe, keyLe, panelKey,
    strLtb_label_facts]

theorem rat_29_25 : (29.25 : ℚ) = ⟨117, 4, by norm_num, by norm_num⟩ := by
  rw [Rat.mk'_eq_divInt, Rat.divInt_eq_div]; norm_num

theorem rat_28_5 : (28.5 : ℚ) = ⟨57, 2, by norm_num, by norm_num⟩ := by
  rw [Rat.mk'_eq_divInt, Rat.divInt_eq_div]; norm_num

theorem renderRat_29_25 : renderRat 29.25 = "29.25" := by
  rw [rat_29_25]; decide

theorem renderRat_28_5 : renderRat 28.5 = "28.5" := by
  rw [rat_28_5]; decide

theorem renderRat_3 : renderRat 3 = "3" := by
  rw [show (3 : ℚ) = ⟨3, 1, one_ne_zero, by decide⟩ by
    rw [Rat.mk'_eq_divInt, Rat.divInt_eq_div]; norm_num]
  decide

theorem renderRat_4 : renderRat 4 = "4" := by
  rw [show (4 : ℚ) = ⟨4, 1, one_ne_zero, by decide⟩ by
    rw [Rat.mk'_eq_divInt, Rat.divInt_eq_div]; norm_num]
  decide

theorem renderRat_6 : renderRat 6 = "6" := by
  rw [show (6 : ℚ) = ⟨6, 1, one_ne_zero, by decide⟩ by
    rw [Rat.mk'_eq_divInt, Rat.divInt_eq_div]; norm_num]
  decide

theorem renderRat_8 : renderRat 8 = "8" := by
  rw [show (8 : ℚ) = ⟨8, 1, one_ne_zero, by decide⟩ by
    rw [Rat.mk'_eq_divInt, Rat.divInt_eq_div]; norm_num]
  decide

theorem renderRat_10 : renderRat 10 = "10" := by
  rw [show (10 : ℚ) = ⟨10, 1, one_ne_zero, by decide⟩ by
    rw [Rat.mk'_eq_divInt, Rat.divInt_eq_div]; norm_num]
  decide

theorem renderRat_12 : renderRat 12 = "12" := by
  rw [show (12 : ℚ) = ⟨12, 1, one_ne_zero, by decide⟩ by
    rw [Rat.mk'_eq_divInt, Rat.divInt_eq_div]; norm_num]
  decide

theorem renderRat_24 : renderRat 24 = "24" := by
  rw [show (24 : ℚ) = ⟨24, 1, one_ne_zero, by decide⟩ by
    rw [Rat.mk'_eq_divInt, Rat.divInt_eq_div]; norm_num]
  decide

theorem renderRat_30 : renderRat 30 = "30" := by
  rw [show (30 : ℚ) = ⟨30, 1, one_ne_zero, by decide⟩ by
    rw [Rat.mk'_eq_divInt, Rat.divInt_eq_div]; norm_num]
  decide

theorem handleExportCSV_ex :
    handleExportCSV [exRow1, exRow2] =
      some ("Label,Width,Height,Count\nBack,29.25,28.5,10\nBrace,28.5,3,30\nFloor,29.25,12,6\nFloor,29.25,24,4\nWall,12,30,12\nWall,24,30,8") := by
  rw [handleExportCSV, aggregatePanels_ex, if_neg (by simp)]
  simp only [List.map_cons, List.map_nil, groupLine, csvHeader, joinLines,
    renderRat_29_25, renderRat_28_5, renderRat_3, renderRat_4, renderRat_6,
    renderRat_8, renderRat_10, renderRat_12, renderRat_24, renderRat_30]
  decide

theorem addToGroup_sum (p : Panel) :
    ∀ gs : List Panel,
      ((addToGroup p gs).map Panel.count).sum = (gs.map Panel.count).sum + p.count := by
  intro gs
  induction gs with
  | nil => simp [addToGroup]
  | cons g gs ih =>
    by_cases h : panelKey g = panelKey p
    · simp only [addToGroup, if_pos h, List.map_cons, List.sum_cons]
      ring
    · simp only [addToGroup, if_neg h, List.map_cons, List.sum_cons, ih]
      ring

theorem foldl_addToGroup_sum :
    ∀ ps acc : List Panel,
      ((ps.foldl (fun a p => addToGroup p a) acc).map Panel.count).sum =
        (acc.map Panel.count).sum + (ps.map Panel.count).sum := by
  intro ps
  induction ps with
  | nil => intro acc; simp
  | cons p ps ih =>
    intro acc
    rw [List.foldl_cons, ih, addToGroup_sum, List.map_cons, List.sum_cons]
    ring

theorem buildGroups_sum (rows : List Row) :
    ((buildGroups rows).map Panel.count).sum =
      ((rows.flatMap computePanelsForRow).map Panel.count).sum := by
  rw [buildGroups, foldl_addToGroup_sum]
  simp

theorem aggregatePanels_eq_map_keys (rows : List Row) :
    aggregatePanels rows =
      ((aggregatePanels rows).map panelKey).map
        (fun k => mkGroup k (keyCount (rows.flatMap computePanelsForRow) k)) := by
  rw [List.map_map]
  conv_lhs => rw [← List.map_id (aggregatePanels rows)]
  exact List.map_congr_left fun g hg => mem_aggregatePanels_eq_mkGroup hg

theorem computePanelsForRow_label_irrel (row : Row) (l : String) :
    computePanelsForRow { row with label := l } = computePanelsForRow row := by
  cases row
  rfl

theorem aggregatePanels_label_irrel (rows : List Row) (f : Row → String) :
    aggregatePanels (rows.map fun row => { row with label := f row }) =
      aggregatePanels rows := by
  have h : (rows.map fun row => { row with label := f row }).flatMap
      computePanelsForRow = rows.flatMap computePanelsForRow := by
    induction rows with
    | nil => rfl
    | cons r rs ih =>
      simp only [List.map_cons, List.flatMap_cons, ih,
        computePanelsForRow_label_irrel]
  rw [aggregatePanels, aggregatePanels, buildGroups, buildGroups, h]

theorem panel_label_mem_aux (row : Row) {p : Panel}
    (hp : p ∈ computePanelsForRow row) :
    p.label = "Wall" ∨ p.label = "Floor" ∨ p.label = "Back" ∨ p.label = "Brace" := by
  rw [computePanelsForRow] at hp
  rcases hb : getEffectiveBoxHeight row with _ | bh <;>
  rcases hw : parseNumber row.boxWidth with _ | w <;>
  rcases hd : parseNumber row.boxDepth with _ | d <;>
  rcases hbr : parseNumber row.braceHeight with _ | br <;>
  rcases hq : parseNumber row.quantity with _ | q <;>
  rw [hb, hw, hd, hbr, hq] at hp <;>
  try exact absurd hp (List.not_mem_nil p)
  have hp2 : p ∈ (if q ≤ 0 then ([] : List Panel) else
      List.filter
        (fun p => decide (0 < p.width) && decide (0 < p.height) && decide (0 < p.count))
        [⟨"Wall", d, bh, 2 * q⟩, ⟨"Floor", w - 0.75, d, 1 * q⟩,
         ⟨"Back", w - 0.75, bh - 1.5, 1 * q⟩, ⟨"Brace", w - 1.5, br, 3 * q⟩]) := hp
  split at hp2
  · exact absurd hp2 (List.not_mem_nil p)
  · have hmem := (List.mem_filter.mp hp2).1
    simp only [List.mem_cons, List.not_mem_nil, or_false] at hmem
    rcases hmem with h | h | h | h <;> subst h <;> simp

theorem computePanelsForRow_length_le (row : Row) :
    (computePanelsForRow row).length ≤ 4 := by
  rw [computePanelsForRow]
  rcases getEffectiveBoxHeight row with _ | bh <;>
  rcases parseNumber row.boxWidth with _ | w <;>
  rcases parseNumber row.boxDepth with _ | d <;>
  rcases parseNumber row.braceHeight with _ | br <;>
  rcases parseNumber row.quantity with _ | q <;>
  try exact (by decide : ([] : List Panel).length ≤ 4)
  show (if q ≤ 0 then ([] : List Panel) else
      List.filter
        (fun p => decide (0 < p.width) && decide (0 < p.height) && decide (0 < p.count))
        [⟨"Wall", d, bh, 2 * q⟩, ⟨"Floor", w - 0.75, d, 1 * q⟩,
         ⟨"Back", w - 0.75, bh - 1.5, 1 * q⟩,
         ⟨"Brace", w - 1.5, br, 3 * q⟩]).length ≤ 4
  split_ifs
  · exact (by decide : ([] : List Panel).length ≤ 4)
  · exact le_trans (List.length_filter_le _ _) (by simp)

theorem computePanelsForRow_shortRow :
    computePanelsForRow shortRow =
      [⟨"Wall", 24, 1, 2⟩, ⟨"Floor", 29.25, 24, 1⟩, ⟨"Brace", 28.5, 3, 3⟩] := by
  norm_num [computePanelsForRow, getEffectiveBoxHeight, parseNumber, shortRow,
    List.filter]

/-- Claim C1: for every input collection, `aggregatePanels` yields
exactly one group per distinct (panelType, width, height) key occurring
among the expanded panels (keys pairwise distinct, every expanded
panel's key present, no group with an unused key), each group's count
is the exact rational sum of the counts of the panels sharing that key
(grouping compares width and height by exact equality of the key
triple), and in the section-8 example the two Back panels (width 29.25,
height 28.5, counts 4 and 6) merge into one group with totalCount 10. -/
theorem aggregate_group_exactness (rows : List Row) :
    (((aggregatePanels rows).map panelKey).Nodup ∧
      (∀ p ∈ rows.flatMap computePanelsForRow,
        panelKey p ∈ (aggregatePanels rows).map panelKey) ∧
      (∀ g ∈ aggregatePanels rows,
        panelKey g ∈ (rows.flatMap computePanelsForRow).map panelKey ∧
        g.count = keyCount (rows.flatMap computePanelsForRow) (panelKey g))) ∧
    Panel.mk "Back" 29.25 28.5 10 ∈ aggregatePanels [exRow1, exRow2] := by
  refine ⟨⟨aggregatePanels_nodup_key rows, ?_, ?_⟩, ?_⟩
  · intro p hp
    rw [aggregatePanels_mem_key]
    exact List.mem_map_of_mem panelKey hp
  · intro g hg
    refine ⟨?_, ?_⟩
    · rw [← aggregatePanels_mem_key]
      exact List.mem_map_of_mem panelKey hg
    · exact congrArg Panel.count (mem_aggregatePanels_eq_mkGroup hg)
  · rw [aggregatePanels_ex]
    exact List.mem_cons_self _ _

theorem aggregate_group_exactness_witness :
    panelKey (Panel.mk "Wall" 24 30 8) ∈
      (aggregatePanels [exRow1, exRow2]).map panelKey := by
  apply (aggregate_group_exactness [exRow1, exRow2]).1.2.1
  rw [show ([exRow1, exRow2].flatMap computePanelsForRow) =
      computePanelsForRow exRow1 ++ computePanelsForRow exRow2 by simp,
    computePanelsForRow_exRow1]
  exact List.mem_append_left _ (List.mem_cons_self _ _)

/-- Claim C2: for the spec with cabinetHeight 34.5, kickHeight 4.5,
boxWidth 30, boxDepth 24, braceHeight 3, quantity 4, the resolved box
height is 30 and the expansion is exactly Wall (24, 30, 8),
Floor (29.25, 24, 4), Back (29.25, 28.5, 4), Brace (28.5, 3, 12), per
the fixed formulas. -/
theorem expandPanels_example_spec :
    getEffectiveBoxHeight exRow1 = some 30 ∧
    computePanelsForRow exRow1 =
      [⟨"Wall", 24, 30, 8⟩, ⟨"Floor", 29.25, 24, 4⟩,
       ⟨"Back", 29.25, 28.5, 4⟩, ⟨"Brace", 28.5, 3, 12⟩] :=
  ⟨by norm_num [getEffectiveBoxHeight, parseNumber, exRow1],
   computePanelsForRow_exRow1⟩

/-- Claim C3: whenever the resolved box height, boxWidth, boxDepth,
braceHeight or quantity parses to absent, or quantity parses to a value
at most 0, `computePanelsForRow` returns the empty list (a silent skip;
the function is total and never raises). -/
theorem expandPanels_guard_empty (row : Row)
    (h : getEffectiveBoxHeight row = none ∨ parseNumber row.boxWidth = none ∨
      parseNumber row.boxDepth = none ∨ parseNumber row.braceHeight = none ∨
      parseNumber row.quantity = none ∨
      ∃ q, parseNumber row.quantity = some q ∧ q ≤ 0) :
    computePanelsForRow row = [] := by
  rw [computePanelsForRow]
  rcases hb : getEffectiveBoxHeight row with _ | bh <;>
  rcases hw : parseNumber row.boxWidth with _ | w <;>
  rcases hd : parseNumber row.boxDepth with _ | d <;>
  rcases hbr : parseNumber row.braceHeight with _ | br <;>
  rcases hq : parseNumber row.quantity with _ | q <;>
  try rfl
  rcases h with h | h | h | h | h | ⟨q0, hq0, hq0le⟩ <;> simp_all

theorem expandPanels_guard_empty_witness :
    computePanelsForRow
      { label := "no height", cabinetHeight := RawField.blank,
        kickHeight := RawField.blank, boxHeight := RawField.blank,
        boxWidth := RawField.num 30, boxDepth := RawField.num 24,
        braceHeight := RawField.num 3, quantity := RawField.num 4 } = [] :=
  expandPanels_guard_empty _ (Or.inl rfl)

/-- Claim C4: `getEffectiveBoxHeight` returns cabinetHeight − kickHeight
(possibly zero or negative) whenever both parse, ignoring the override
field in that case, and otherwise returns the parsed boxHeight override
field; it is a pure function of the row. -/
theorem getEffectiveBoxHeight_spec (row : Row) :
    (∀ c k, parseNumber row.cabinetHeight = some c →
       parseNumber row.kickHeight = some k →
       getEffectiveBoxHeight row = some (c - k) ∧
       (∀ b, getEffectiveBoxHeight { row with boxHeight := b } = some (c - k))) ∧
    ((parseNumber row.cabinetHeight = none ∨ parseNumber row.kickHeight = none) →
       getEffectiveBoxHeight row = parseNumber row.boxHeight) := by
  constructor
  · intro c k hc hk
    constructor
    · rw [getEffectiveBoxHeight, hc, hk]
    · intro b
      have hc2 : parseNumber ({ row with boxHeight := b } : Row).cabinetHeight = some c := hc
      have hk2 : parseNumber ({ row with boxHeight := b } : Row).kickHeight = some k := hk
      rw [getEffectiveBoxHeight, hc2, hk2]
  · intro h
    rcases hc : parseNumber row.cabinetHeight with _ | c
    · rw [getEffectiveBoxHeight, hc]
    · rcases hk : parseNumber row.kickHeight with _ | k
      · rw [getEffectiveBoxHeight, hc, hk]
      · rcases h with h | h
        · exact absurd (hc.symm.trans h) (by simp)
        · exact absurd (hk.symm.trans h) (by simp)

theorem getEffectiveBoxHeight_spec_witness :
    getEffectiveBoxHeight exRow1 = some (34.5 - 4.5) ∧
    getEffectiveBoxHeight { exRow1 with cabinetHeight := RawField.blank } =
      parseNumber ({ exRow1 with cabinetHeight := RawField.blank } : Row).boxHeight :=
  ⟨((getEffectiveBoxHeight_spec exRow1).1 34.5 4.5 rfl rfl).1,
   (getEffectiveBoxHeight_spec _).2 (Or.inl rfl)⟩

/-- Claim C5: the group list returned by `aggregatePanels` is
non-decreasingly sorted under the composite comparator (label ascending
in string order, then width ascending, then height ascending), both as
a list of groups and on its list of key triples. -/
theorem aggregate_sorted_spec (rows : List Row) :
    List.Sorted panelLe (aggregatePanels rows) ∧
    List.Sorted keyLe ((aggregatePanels rows).map panelKey) :=
  ⟨aggregatePanels_sorted rows, aggregatePanels_sorted_keys rows⟩

/-- Claim C6: permuting the input rows leaves the aggregated output
unchanged — not merely as a set: the sorted group list, hence every
group's key and summed count, is identical. -/
theorem aggregate_perm_invariant {rows1 rows2 : List Row}
    (h : List.Perm rows1 rows2) :
    aggregatePanels rows1 = aggregatePanels rows2 := by
  have hps : List.Perm (rows1.flatMap computePanelsForRow)
      (rows2.flatMap computePanelsForRow) :=
    h.flatMap_right computePanelsForRow
  have hkeys : (aggregatePanels rows1).map panelKey =
      (aggregatePanels rows2).map panelKey := by
    refine List.eq_of_perm_of_sorted ?_ (aggregatePanels_sorted_keys rows1)
      (aggregatePanels_sorted_keys rows2)
    rw [List.perm_ext_iff_of_nodup (aggregatePanels_nodup_key rows1)
      (aggregatePanels_nodup_key rows2)]
    intro k
    rw [aggregatePanels_mem_key, aggregatePanels_mem_key]
    exact (hps.map panelKey).mem_iff
  rw [aggregatePanels_eq_map_keys rows1, aggregatePanels_eq_map_keys rows2, hkeys]
  exact List.map_congr_left fun k _ => by rw [keyCount_perm hps]

theorem aggregate_perm_invariant_witness :
    aggregatePanels [exRow1, exRow2] = aggregatePanels [exRow2, exRow1] :=
  aggregate_perm_invariant (List.Perm.swap exRow2 exRow1 [])

/-- Claim C7 counterexample: for a spec with resolved box height 1 the
Back panel is filtered out (height 1 − 1.5 ≤ 0) and the expansion has
length 3, which is neither 0 nor 4. -/
theorem expandPanels_length_counterexample :
    (computePanelsForRow shortRow).length = 3 ∧
    ¬((computePanelsForRow shortRow).length = 0 ∨
      (computePanelsForRow shortRow).length = 4) := by
  rw [computePanelsForRow_shortRow]
  exact ⟨rfl, by simp⟩

/-- Claim C7 amended: `computePanelsForRow` returns a finite list of
length at most 4 (the positivity filter can drop panels, so any length
from 0 to 4 occurs), and it is deterministic: identical input yields
identical output. -/
theorem expandPanels_length_le_four (row : Row) :
    (computePanelsForRow row).length ≤ 4 ∧
    computePanelsForRow row = computePanelsForRow row :=
  ⟨computePanelsForRow_length_le row, rfl⟩

/-- Claim C8 counterexample: panels carry no origin label — every panel
of the first example spec (label `Base 30"`) is labelled with its fixed
panel type, none carries the spec's label or the string "Unlabeled",
and relabelling the spec does not change the expansion at all. -/
theorem origin_label_counterexample :
    (computePanelsForRow exRow1).map Panel.label = ["Wall", "Floor", "Back", "Brace"] ∧
    "Base 30\"" ∉ (computePanelsForRow exRow1).map Panel.label ∧
    "Unlabeled" ∉ (computePanelsForRow exRow1).map Panel.label ∧
    computePanelsForRow { exRow1 with label := "Renamed" } = computePanelsForRow exRow1 := by
  refine ⟨?_, ?_, ?_, computePanelsForRow_label_irrel exRow1 "Renamed"⟩ <;>
  rw [computePanelsForRow_exRow1] <;> decide

/-- Claim C8 amended: every emitted panel is labelled with one of the
four fixed panel types (no originLabel field exists), and both the
expansion and the aggregation are independent of the specs' label
fields (no contributingLabels are recorded). -/
theorem origin_label_amended (rows : List Row) (f : Row → String) :
    (∀ row : Row, ∀ p ∈ computePanelsForRow row,
       p.label = "Wall" ∨ p.label = "Floor" ∨ p.label = "Back" ∨ p.label = "Brace") ∧
    aggregatePanels (rows.map fun row => { row with label := f row }) =
      aggregatePanels rows :=
  ⟨fun row _ hp => panel_label_mem_aux row hp, aggregatePanels_label_irrel rows f⟩

theorem origin_label_amended_witness :
    (Panel.mk "Wall" 24 30 8).label = "Wall" ∨
    (Panel.mk "Wall" 24 30 8).label = "Floor" ∨
    (Panel.mk "Wall" 24 30 8).label = "Back" ∨
    (Panel.mk "Wall" 24 30 8).label = "Brace" :=
  (origin_label_amended [] (fun _ => "x")).1 exRow1 (Panel.mk "Wall" 24 30 8)
    (by rw [computePanelsForRow_exRow1]; exact List.mem_cons_self _ _)

/-- Claim C9 counterexample: the CSV artifact of the example input uses
the four-field header `Label,Width,Height,Count` — its text does not
begin with `PanelType,Width,Height,Count,Cabinets`, and no fifth
cabinet-labels column exists. -/
theorem csv_format_counterexample :
    handleExportCSV [exRow1, exRow2] =
      some ("Label,Width,Height,Count\nBack,29.25,28.5,10\nBrace,28.5,3,30\nFloor,29.25,12,6\nFloor,29.25,24,4\nWall,12,30,12\nWall,24,30,8") ∧
    ("Label,Width,Height,Count\nBack,29.25,28.5,10\nBrace,28.5,3,30\nFloor,29.25,12,6\nFloor,29.25,24,4\nWall,12,30,12\nWall,24,30,8").data.take 38 ≠
      ("PanelType,Width,Height,Count,Cabinets\n").data ∧
    csvHeader ≠ "PanelType,Width,Height,Count,Cabinets" :=
  ⟨handleExportCSV_ex, by decide, by decide⟩

/-- Claim C9 amended: the serializer produces no artifact exactly when
the aggregation is empty, and otherwise emits the header line
`Label,Width,Height,Count` followed by one line per group in the
aggregator's sort order with the four fields label, width, height,
count comma-joined and numbers as plain decimals — as evaluated
end-to-end on the section-8 example. -/
theorem csv_format_amended (rows : List Row) :
    (handleExportCSV rows = none ↔ aggregatePanels rows = []) ∧
    handleExportCSV [exRow1, exRow2] =
      some ("Label,Width,Height,Count\nBack,29.25,28.5,10\nBrace,28.5,3,30\nFloor,29.25,12,6\nFloor,29.25,24,4\nWall,12,30,12\nWall,24,30,8") := by
  refine ⟨?_, handleExportCSV_ex⟩
  rw [handleExportCSV]
  constructor
  · intro h
    by_cases hl : (aggregatePanels rows).length = 0
    · exact List.length_eq_zero.mp hl
    · rw [if_neg hl] at h
      exact absurd h (by simp)
  · intro h
    rw [if_pos (by rw [h]; rfl)]

/-- Claim C10: aggregation conserves the total panel count — the sum of
the group counts (the `totalPanels` reduction) equals the sum of the
counts of all panels expanded from all rows. -/
theorem total_count_conserved (rows : List Row) :
    totalPanels rows = ((rows.flatMap computePanelsForRow).map Panel.count).sum := by
  rw [totalPanels, ((aggregatePanels_perm rows).map Panel.count).sum_eq,
    buildGroups_sum]
